import Mathlib

/-!
Verification of the stream-derivation / analytics core of the Strava
coaching app (frontend analytics in `apps/web/src/lib/analytics.ts` and
the derived-metric computations in
`apps/web/src/pages/activity-detail-page.tsx`).

Numbers are embedded as `ℚ` (JS numbers on the inputs involved stay well
inside the exactly-representable double range, and every operation used
by the code — `+ - * /`, `Math.round`, `Math.min/max`, comparison — is
exact on the rationals that occur).  Dates are embedded as civil
(local-calendar) `year/month/day` triples; `daysFromCivil` is the
standard civil-calendar day-numbering (days since 1970-01-01) that the
JS `Date` getters (`getFullYear`, `getDate`, `getDay`) are defined
against.
-/

/-- A civil calendar date (what JS `Date` getters `getFullYear()`,
`getMonth()+1`, `getDate()` return in local time). -/
structure CivilDate where
  year : ℤ
  month : ℤ
  day : ℤ
deriving DecidableEq, Repr

/-- Day number of a civil date, with day 0 = 1970-01-01 (the standard
civil-from-days algorithm, written with floor division, which is what
`/` and `%` on `ℤ` are for positive divisors). -/
def daysFromCivil (dt : CivilDate) : ℤ :=
  let y := if dt.month ≤ 2 then dt.year - 1 else dt.year
  let mp := if dt.month ≤ 2 then dt.month + 9 else dt.month - 3
  let era := y / 400
  let yoe := y - era * 400
  let doy := (153 * mp + 2) / 5 + dt.day - 1
  let doe := yoe * 365 + yoe / 4 - yoe / 100 + doy
  era * 146097 + doe - 719468

/-- JS `Date.prototype.getDay()`: day of week, 0 = Sunday.
1970-01-01 (day 0) was a Thursday (= 4). -/
def jsDayOfWeek (dt : CivilDate) : ℤ :=
  (daysFromCivil dt + 4) % 7

example : daysFromCivil ⟨1970, 1, 1⟩ = 0 := by decide
example : jsDayOfWeek ⟨1970, 1, 1⟩ = 4 := by decide
example : daysFromCivil ⟨1969, 12, 31⟩ = -1 := by decide
example : daysFromCivil ⟨2000, 3, 1⟩ = 11017 := by decide
example : jsDayOfWeek ⟨2025, 1, 5⟩ = 0 := by decide
example : jsDayOfWeek ⟨2025, 1, 6⟩ = 1 := by decide

/-- The week bucket key of `groupByWeek` in `analytics.ts`:
`` `${dt.getFullYear()}-W${Math.ceil((dt.getDate() + 6 - dt.getDay()) / 7)}` ``.
`Math.ceil (x / 7)` on an integer `x` is `(x + 6) / 7` in floor
division.  The key is embedded as the pair (year, week number); the
source sorts the interpolated strings, which for equal-digit years and
the single-digit week numbers produced on valid dates coincides with
lexicographic order on the pair. -/
def weekKeyOfDate (dt : CivilDate) : ℤ × ℤ :=
  (dt.year, (dt.day + 6 - jsDayOfWeek dt + 6) / 7)

/-- Modelled from the spec: “calendar weeks (Monday 00:00:00 local →
Sunday 23:59:59 local)” — two dates are in the same Monday-start week
iff they have the same Monday-week index.  Day −3 (1969-12-29) was a
Monday, so `(dayNumber + 3) / 7` is constant exactly on Monday-to-Sunday
ranges. -/
def mondayWeekIndex (dt : CivilDate) : ℤ :=
  (daysFromCivil dt + 3) / 7

/-- Sunday-start week index: day −4 (1969-12-28) was a Sunday, so
`(dayNumber + 4) / 7` is constant exactly on Sunday-to-Saturday
ranges.  (Used to characterise what the code's bucket key actually
groups by.) -/
def sundayWeekIndex (dt : CivilDate) : ℤ :=
  (daysFromCivil dt + 4) / 7

example : mondayWeekIndex ⟨1969, 12, 29⟩ = 0 := by decide
example : mondayWeekIndex ⟨1970, 1, 4⟩ = 0 := by decide
example : mondayWeekIndex ⟨1970, 1, 5⟩ = 1 := by decide
example : sundayWeekIndex ⟨1969, 12, 28⟩ = 0 := by decide
example : sundayWeekIndex ⟨1970, 1, 3⟩ = 0 := by decide
example : sundayWeekIndex ⟨1970, 1, 4⟩ = 1 := by decide

/-- Function `km` from `analytics.ts`: `distanceM / 1000`. -/
def km (distanceM : ℚ) : ℚ :=
  distanceM / 1000

/-- Function `pacePerKm` from `analytics.ts`: returns 0 when either argument is
falsy (0), else `movingTimeS / (distanceM / 1000)`. -/
def pacePerKm (distanceM movingTimeS : ℚ) : ℚ :=
  if distanceM = 0 ∨ movingTimeS = 0 then 0 else movingTimeS / (distanceM / 1000)

/-- The fields of the source `Activity` record (`analytics.ts`) that the
analytics computations under verification read.  `suffer_score` and
`avg_hr` are nullable in the source (`number | null | undefined`),
embedded as `Option ℚ`; the remaining source fields (name, ids, kudos,
…) never enter these computations. -/
structure Activity where
  type : String
  start_date : CivilDate
  distance_m : ℚ
  moving_time_s : ℚ
  suffer_score : Option ℚ
  avg_hr : Option ℚ
deriving DecidableEq, Repr

/-- JS `String.prototype.includes` on char lists: does `needle` occur as
a contiguous substring of the haystack? -/
def hasSubstr (needle : List Char) : List Char → Bool
  | [] => needle.isEmpty
  | c :: rest => needle.isPrefixOf (c :: rest) || hasSubstr needle rest

/-- Value `a.type.toLowerCase()` as a char list. -/
def lowerKind (a : Activity) : List Char :=
  a.type.toList.map Char.toLower

/-- Test `kind.includes(sport)` for the lower-cased sport-type string. -/
def matchesSport (sport : String) (a : Activity) : Bool :=
  hasSubstr sport.toList (lowerKind a)

/-- A sample activity used only in evaluation examples. -/
def sampleTrailRun : Activity :=
  { type := "TrailRun"
    start_date := ⟨2025, 1, 6⟩
    distance_m := 1000
    moving_time_s := 300
    suffer_score := none
    avg_hr := none }

example : matchesSport "run" sampleTrailRun = true := by decide
example : matchesSport "ride" sampleTrailRun = false := by decide

/-- One accumulated week bucket of `groupByWeek`:
`{ distance, time, load, run, ride, swim }`. -/
structure WeekAcc where
  distance : ℚ
  time : ℚ
  load : ℚ
  run : ℚ
  ride : ℚ
  swim : ℚ
deriving DecidableEq, Repr

def emptyWeekAcc : WeekAcc :=
  { distance := 0, time := 0, load := 0, run := 0, ride := 0, swim := 0 }

/-- The intensity used by `groupByWeek`:
`a.suffer_score ?? Math.min(100, (a.avg_hr || 140) / 2)`.
`??` falls through only on null/undefined (a present 0 is used);
`||` additionally falls through on a present 0. -/
def intensity (a : Activity) : ℚ :=
  match a.suffer_score with
  | some s => s
  | none =>
    min 100 ((match a.avg_hr with
      | some h => if h = 0 then (140 : ℚ) else h
      | none => (140 : ℚ)) / 2)

/-- The per-activity load contribution `(moving_time_s / 60) * (intensity / 100)`. -/
def loadTerm (a : Activity) : ℚ :=
  (a.moving_time_s / 60) * (intensity a / 100)

/-- The body of the `for` loop of `groupByWeek`: fold one activity into
its week's accumulator. -/
def addActivity (acc : WeekAcc) (a : Activity) : WeekAcc :=
  { distance := acc.distance + km a.distance_m
    time := acc.time + a.moving_time_s / 60
    load := acc.load + loadTerm a
    run := acc.run + (if matchesSport "run" a then km a.distance_m else 0)
    ride := acc.ride + (if matchesSport "ride" a then km a.distance_m else 0)
    swim := acc.swim + (if matchesSport "swim" a then km a.distance_m else 0) }

abbrev WeekKey := ℤ × ℤ

/-- The week key of an activity (`new Date(a.start_date)` local getters). -/
def weekKeyOf (a : Activity) : WeekKey :=
  weekKeyOfDate a.start_date

/-- Updating the JS record `byWeek`: mutate the entry for `k` if it
exists (keeping its position), else append a fresh entry initialised
from `emptyWeekAcc` (JS string-keyed objects keep insertion order). -/
def insertWeek : List (WeekKey × WeekAcc) → WeekKey → Activity → List (WeekKey × WeekAcc)
  | [], k, a => [(k, addActivity emptyWeekAcc a)]
  | (k', acc) :: rest, k, a =>
    if k' = k then (k', addActivity acc a) :: rest
    else (k', acc) :: insertWeek rest k a

/-- The whole `for` loop of `groupByWeek` over the (already
window-filtered) activity list. -/
def bucketize (acts : List Activity) : List (WeekKey × WeekAcc) :=
  acts.foldl (fun st a => insertWeek st (weekKeyOf a) a) []

/-- Week-key order used by the final
`.sort((a, b) => a.week.localeCompare(b.week))` (see `weekKeyOfDate` on
why string order and pair order agree). -/
def weekKeyLE (k1 k2 : WeekKey) : Prop :=
  k1.1 < k2.1 ∨ (k1.1 = k2.1 ∧ k1.2 ≤ k2.2)

instance : DecidableRel weekKeyLE := fun k1 k2 => by
  unfold weekKeyLE; infer_instance

/-- Function `groupByWeek(activities, days)` from `analytics.ts`.  The lookback
filter `now - new Date(a.start_date).getTime() <= days * DAY_MS` is
abstracted into the predicate `inWindow` (its value depends on the
wall-clock `now`, which the bucketing below never looks at); the rest is
the bucketing fold followed by the sort by week key. -/
def groupByWeek (inWindow : Activity → Bool) (acts : List Activity) :
    List (WeekKey × WeekAcc) :=
  List.insertionSort (fun e1 e2 => weekKeyLE e1.1 e2.1) (bucketize (acts.filter inWindow))

/-- Jump and ramp warning of `buildInsights` given the ordered weekly
aggregate list: `current = weeks[weeks.length - 1]`,
`previous = weeks[weeks.length - 2]` (both `undefined` when out of
range), and
`jump = current && previous && previous.distance > 0 ? ((current.distance - previous.distance) / previous.distance) * 100 : 0`. -/
def insightJump (weeks : List (WeekKey × WeekAcc)) : ℚ :=
  match weeks.getLast?, weeks.dropLast.getLast? with
  | some current, some previous =>
    if previous.2.distance > 0 then
      (current.2.distance - previous.2.distance) / previous.2.distance * 100
    else 0
  | _, _ => 0

/-- Flag `rampWarning: jump > 15` from `buildInsights`. -/
def rampWarningOf (weeks : List (WeekKey × WeekAcc)) : Bool :=
  insightJump weeks > 15

/-- The ramp-warning part of `buildInsights(activities)`: it feeds
`groupByWeek(activities, 56)` into the jump computation.  (The
remaining fields — streak, templated strings, readiness — are modelled
separately / not needed by the claims about this function.) -/
def buildInsightsRamp (inWindow : Activity → Bool) (acts : List Activity) : Bool :=
  rampWarningOf (groupByWeek inWindow acts)

/-- The loop of `activityStreak`: `dates` is the list of activity day
numbers (the JS code builds the set of `toISOString().slice(0, 10)` day
strings; subtracting `i * DAY_MS` from `now` shifts the ISO day by
exactly `i`), `today` the current day number, and the loop walks
offsets `i = 0, …, 59`:

`if (dates.has(d)) streak += 1; else if (streak > 0) break;` -/
def streakLoop (dates : List ℤ) (today : ℤ) : List ℕ → ℕ → ℕ
  | [], streak => streak
  | i :: rest, streak =>
    if dates.contains (today - (i : ℤ)) then streakLoop dates today rest (streak + 1)
    else if 0 < streak then streak
    else streakLoop dates today rest streak

/-- Function `activityStreak` from `analytics.ts`. -/
def activityStreak (dates : List ℤ) (today : ℤ) : ℕ :=
  streakLoop dates today (List.range 60) 0

/-- Modelled from the spec side of the amended claim: the length of the
first maximal run of consecutive active days met when walking backward
from today through the 60-day window — leading gap days are skipped
without breaking. -/
def firstRunStreak (dates : List ℤ) (today : ℤ) : ℕ :=
  (((List.range 60).dropWhile fun i : ℕ => !dates.contains (today - (i : ℤ))).takeWhile
    fun i : ℕ => dates.contains (today - (i : ℤ))).length

/-- The five HR zone occupancy percentages
(`data?.derived_metrics?.hr_zone_distribution`, absent entries read as
0 by `Number(zoneRaw.zi || 0)`). -/
structure ZonePercents where
  z1 : ℚ
  z2 : ℚ
  z3 : ℚ
  z4 : ℚ
  z5 : ℚ
deriving DecidableEq, Repr

/-- One entry of `zoneData` in the activity detail page:
`Math.round((movingTime * pct) / 100)`.  JS `Math.round` is
round-half-up, which is exactly Mathlib's `round` on `ℚ`. -/
def zoneSeconds (movingTime pct : ℚ) : ℤ :=
  round (movingTime * pct / 100)

/-- The five `seconds` values of the `zoneData` array (the colour and
label fields of the source records carry no numeric content). -/
def zoneSecondsList (movingTime : ℚ) (z : ZonePercents) : List ℤ :=
  [zoneSeconds movingTime z.z1, zoneSeconds movingTime z.z2, zoneSeconds movingTime z.z3,
    zoneSeconds movingTime z.z4, zoneSeconds movingTime z.z5]

/-- One computed split `{ split, distance, elapsed_time }`. -/
structure Split where
  split : ℤ
  distance : ℚ
  elapsed_time : ℚ
deriving DecidableEq, Repr

/-- The split-derivation loop of the activity detail page, walking the
(equal-length, zipped) distance/time samples with the current split
index and the time of the previous boundary crossing:

`if (distances[i] >= splitIndex * splitMeters) { out.push({split, distance: splitMeters, elapsed_time: t - prevTime}); prevTime = t; splitIndex += 1; }` -/
def splitsGo (splitMeters : ℚ) : List (ℚ × ℚ) → ℤ → ℚ → List Split
  | [], _, _ => []
  | (d, t) :: rest, splitIndex, prevTime =>
    if (splitIndex : ℚ) * splitMeters ≤ d then
      { split := splitIndex, distance := splitMeters, elapsed_time := t - prevTime } ::
        splitsGo splitMeters rest (splitIndex + 1) t
    else
      splitsGo splitMeters rest splitIndex prevTime

/-- Test `String(data?.type || '').toLowerCase().includes('swim')`. -/
def isSwimType (ty : String) : Bool :=
  hasSubstr "swim".toList (ty.toList.map Char.toLower)

/-- The stream-derived split computation:
guard `if (!distances.length || !times.length || distances.length !== times.length) return []`,
quantum `splitMeters = isSwim ? 100 : 1000`, then the crossing loop with
`splitIndex = 1`, `prevTime = 0`. -/
def computeSplits (isSwim : Bool) (distances times : List ℚ) : List Split :=
  if distances.isEmpty ∨ times.isEmpty ∨ distances.length ≠ times.length then []
  else splitsGo (if isSwim then 100 else 1000) (distances.zip times) 1 0

/-- The full `splits` memo: provider-supplied `splits_metric` are
authoritative when non-empty, else the computation from the streams. -/
def splitsOf (rawSplits : List Split) (ty : String) (distances times : List ℚ) : List Split :=
  if !rawSplits.isEmpty then rawSplits
  else computeSplits (isSwimType ty) distances times

/-- One emitted point of the `hrPaceSeries` memo (before the
plot-domain post-processing, which copies `pace` unchanged and only adds
the inverted `pace_plot` coordinate). -/
structure PaceSample where
  t : ℚ
  hr : Option ℚ
  pace : ℚ
deriving DecidableEq, Repr

/-- Rounding `Number(x.toFixed(1))`: round to one decimal place. -/
def round1 (x : ℚ) : ℚ :=
  (round (10 * x) : ℚ) / 10

/-- The EMA seed of the pace smoother:
`pacePerKm(distance_m, moving_time_s) || 360`. -/
def fallbackPace (distanceM movingTimeS : ℚ) : ℚ :=
  if pacePerKm distanceM movingTimeS = 0 then 360 else pacePerKm distanceM movingTimeS

/-- The inner bucket-average of heart-rate samples `hr[j]` for
`j = start, …, i` (non-null samples only): sum and count. -/
def hrWindow (hr : List (Option ℚ)) (start i : ℕ) : ℚ × ℕ :=
  ((List.range (i + 1 - start)).map fun k => hr.getD (start + k) none).foldl
    (fun acc o => match o with
      | some v => (acc.1 + v, acc.2 + 1)
      | none => acc) (0, 0)

/-- Bucketed heart-rate value: the window average when any sample was
non-null, else the running `lastHr`. -/
def hrValue (hr : List (Option ℚ)) (start i : ℕ) (lastHr : Option ℚ) : Option ℚ :=
  let w := hrWindow hr start i
  if 0 < w.2 then some (w.1 / (w.2 : ℚ)) else lastHr

/-- The raw pace candidate of one closed bucket, with `p = dt / (dd / 1000)`:
accepted only when `dt > 0`, `dd > 2` and `120 ≤ p ≤ 1200` (such a `p`
is always finite over ℚ), then clamped to `[0.55·ema, 1.6·ema]`. -/
def paceCandidateOf (emaPace elapsed dd : ℚ) : Option ℚ :=
  if 0 < elapsed ∧ 2 < dd then
    if 120 ≤ elapsed / (dd / 1000) ∧ elapsed / (dd / 1000) ≤ 1200 then
      some (max (0.55 * emaPace) (min (1.6 * emaPace) (elapsed / (dd / 1000))))
    else none
  else none

/-- Update `if (paceCandidate != null) emaPace = (emaPace * 0.82) + (paceCandidate * 0.18)`. -/
def emaUpdate (emaPace : ℚ) : Option ℚ → ℚ
  | some c => 0.82 * emaPace + 0.18 * c
  | none => emaPace

/-- The main loop of `hrPaceSeries`, iterating `i` from 1 to `len - 1`
(`fuel = len - i` remaining iterations), carrying the current bucket
start index, the pace EMA and the last seen heart rate.  A bucket
closes once `elapsed = time[i] - time[startIdx] ≥ 10`; the accepted
candidate updates the EMA and the emitted pace is
`Number(emaPace.toFixed(1))`. -/
def hrPaceGo (dist time : List ℚ) (hr : List (Option ℚ)) :
    ℕ → ℕ → ℕ → ℚ → Option ℚ → List PaceSample
  | 0, _, _, _, _ => []
  | fuel + 1, i, startIdx, emaPace, lastHr =>
    let elapsed := time.getD i 0 - time.getD startIdx 0
    if elapsed < 10 then hrPaceGo dist time hr fuel (i + 1) startIdx emaPace lastHr
    else
      let emaPace' := emaUpdate emaPace
        (paceCandidateOf emaPace elapsed (dist.getD i 0 - dist.getD startIdx 0))
      let hrv := hrValue hr startIdx i lastHr
      let lastHr' := match hrv with
        | some v => some v
        | none => lastHr
      { t := time.getD i 0, hr := hrv, pace := round1 emaPace' } ::
        hrPaceGo dist time hr fuel (i + 1) i emaPace' lastHr'

/-- Memo `hrPaceSeries` from the activity detail page (the emitted
`{t, hr, pace}` points; the subsequent plot-domain pass only adds the
inverted `pace_plot` field and is not modelled).

`len = min(distance.length, time.length)`; fewer than 2 samples yield
an empty series; `lastHr` is seeded with the first non-null heart-rate
sample, falling back to the activity's `avg_hr`. -/
def hrPaceSeries (distanceM movingTimeS : ℚ) (avgHr : Option ℚ)
    (dist time : List ℚ) (hr : List (Option ℚ)) : List PaceSample :=
  let len := min dist.length time.length
  if len < 2 then []
  else
    hrPaceGo dist time hr (len - 1) 1 0 (fallbackPace distanceM movingTimeS)
      (match (hr.filterMap id).head? with
        | some v => some v
        | none => avgHr)

example : zoneSecondsList 3600 ⟨20, 30, 30, 15, 5⟩ = [720, 1080, 1080, 540, 180] := by
  norm_num [zoneSecondsList, zoneSeconds, round_eq]

/-- C8: for the activity with distance stream `[0,250,500,750,1000,1250]`,
time stream `[0,60,120,180,240,300]`, sport "Run" and no
provider-supplied splits, the split computation returns exactly one
split with index 1, distance 1000 m, elapsed time 240 s; the trailing
partial 250 m segment is dropped. -/
theorem C8_run_scenario_single_split :
    splitsOf [] "Run" [0, 250, 500, 750, 1000, 1250] [0, 60, 120, 180, 240, 300] =
      [{ split := 1, distance := 1000, elapsed_time := 240 }] := by
  have hsw : isSwimType "Run" = false := by decide
  norm_num [splitsOf, computeSplits, splitsGo, hsw, List.zip]

/-- C7 counterexample: two equal-length single-sample streams — shorter
than 2 samples — do NOT yield zero splits: a single sample at 1500 m
already crosses the 1000 m quantum and one split is emitted. -/
theorem C7_counterexample :
    computeSplits false [1500] [60] = [{ split := 1, distance := 1000, elapsed_time := 60 }] ∧
      computeSplits false [1500] [60] ≠ [] := by
  have h : computeSplits false [1500] [60] =
      [{ split := 1, distance := 1000, elapsed_time := 60 }] := by
    norm_num [computeSplits, splitsGo, List.zip]
  exact ⟨h, by rw [h]; exact fun hc => List.noConfusion hc⟩

/-- C7 (amended): for every pair of distance/time streams where either
stream is empty or the two streams have mismatched lengths, the split
computation yields zero splits (and, being a total function, raises no
error).  Single-sample streams, however, are processed by the loop. -/
theorem C7_degenerate_streams_no_splits (isSwim : Bool) (distances times : List ℚ)
    (h : distances = [] ∨ times = [] ∨ distances.length ≠ times.length) :
    computeSplits isSwim distances times = [] := by
  rcases h with h | h | h <;> simp [computeSplits, h]

theorem C7_witness : computeSplits false [] [0] = [] :=
  C7_degenerate_streams_no_splits false [] [0] (Or.inl rfl)

/-- C2: the ramp warning of the insight computation is true iff both a
current (last) and a previous (second-to-last) weekly aggregate exist,
the previous week's distance is strictly positive, and the relative
distance jump exceeds 15 %; and whenever the previous week is absent or
has zero distance the jump is 0 and the warning is off, for every
current-week distance. -/
theorem C2_ramp_warning_iff (weeks : List (WeekKey × WeekAcc)) :
    (rampWarningOf weeks = true ↔
      ∃ current previous,
        weeks.getLast? = some current ∧
        weeks.dropLast.getLast? = some previous ∧
        0 < previous.2.distance ∧
        15 / 100 < (current.2.distance - previous.2.distance) / previous.2.distance) ∧
    ((weeks.dropLast.getLast? = none ∨
        ∃ previous, weeks.dropLast.getLast? = some previous ∧ previous.2.distance = 0) →
      insightJump weeks = 0 ∧ rampWarningOf weeks = false) := by
  unfold rampWarningOf insightJump
  cases hc : weeks.getLast? with
  | none =>
    have hp : weeks.dropLast.getLast? = none := by
      cases weeks with
      | nil => rfl
      | cons a l => simp [List.getLast?_eq_none_iff] at hc
    rw [hp]
    simp
  | some current =>
    cases hp : weeks.dropLast.getLast? with
    | none =>
      constructor
      · simp
      · intro _
        simp
    | some previous =>
      constructor
      · by_cases hd : previous.2.distance > 0
        · simp only [if_pos hd, decide_eq_true_eq]
          constructor
          · intro hgt
            refine ⟨current, previous, rfl, rfl, hd, ?_⟩
            nlinarith [hgt]
          · rintro ⟨c, p, hcc, hpp, hpd, hr⟩
            injection hcc with hc2
            injection hpp with hp2
            subst hc2
            subst hp2
            nlinarith [hr]
        · simp only [if_neg hd, decide_eq_true_eq]
          constructor
          · intro h
            exact absurd h (by norm_num)
          · rintro ⟨c, p, hcc, hpp, hpd, hr⟩
            injection hpp with hp2
            subst hp2
            exact absurd hpd hd
      · rintro (h | ⟨u, hu, hzero⟩)
        · exact absurd h (by simp)
        · injection hu with hu2
          subst hu2
          simp [hzero]

/-- A concrete two-week aggregate list used by the C2 witness. -/
def weekLow : WeekKey × WeekAcc :=
  ((2025, 1), { emptyWeekAcc with distance := 5 })

/-- A concrete two-week aggregate list used by the C2 witness. -/
def weekHigh : WeekKey × WeekAcc :=
  ((2025, 2), { emptyWeekAcc with distance := 10 })

theorem C2_witness : rampWarningOf [weekLow, weekHigh] = true :=
  (C2_ramp_warning_iff [weekLow, weekHigh]).1.mpr
    ⟨weekHigh, weekLow, by decide, by decide, by norm_num [weekLow, emptyWeekAcc],
      by norm_num [weekLow, weekHigh, emptyWeekAcc]⟩

/-- Rounding bounds used for the zone-second sum: JS `Math.round` (=
Mathlib `round`, round half up) differs from its argument by at most a
half, overshooting by at most 1/2 and undershooting by strictly less. -/
theorem round_half_bounds (x : ℚ) : (round x : ℚ) ≤ x + 1 / 2 ∧ x - 1 / 2 < (round x : ℚ) := by
  rw [round_eq]
  constructor
  · exact_mod_cast (Int.floor_le (x + 1 / 2))
  · have := Int.lt_floor_add_one (x + 1 / 2)
    push_cast at this ⊢
    linarith

/-- C4: for every zone-occupancy map of non-negative percentages summing
to 100 and every non-negative integer moving time, each zone's seconds
value equals `round(moving_time_s × percentage / 100)`, and the sum of
the five zone seconds differs from the moving time by at most 2. -/
theorem C4_zone_seconds_within_two (T : ℤ) (z : ZonePercents) (hT : 0 ≤ T)
    (h1 : 0 ≤ z.z1) (h2 : 0 ≤ z.z2) (h3 : 0 ≤ z.z3) (h4 : 0 ≤ z.z4) (h5 : 0 ≤ z.z5)
    (hsum : z.z1 + z.z2 + z.z3 + z.z4 + z.z5 = 100) :
    zoneSecondsList (T : ℚ) z =
      [round ((T : ℚ) * z.z1 / 100), round ((T : ℚ) * z.z2 / 100), round ((T : ℚ) * z.z3 / 100),
        round ((T : ℚ) * z.z4 / 100), round ((T : ℚ) * z.z5 / 100)] ∧
    |(zoneSecondsList (T : ℚ) z).sum - T| ≤ 2 := by
  refine ⟨rfl, ?_⟩
  have hxsum : (T : ℚ) * z.z1 / 100 + (T : ℚ) * z.z2 / 100 + (T : ℚ) * z.z3 / 100 +
      (T : ℚ) * z.z4 / 100 + (T : ℚ) * z.z5 / 100 = (T : ℚ) := by
    have : (T : ℚ) * z.z1 / 100 + (T : ℚ) * z.z2 / 100 + (T : ℚ) * z.z3 / 100 +
        (T : ℚ) * z.z4 / 100 + (T : ℚ) * z.z5 / 100 =
        (T : ℚ) * (z.z1 + z.z2 + z.z3 + z.z4 + z.z5) / 100 := by ring
    rw [this, hsum]
    norm_num
  have b1 := round_half_bounds ((T : ℚ) * z.z1 / 100)
  have b2 := round_half_bounds ((T : ℚ) * z.z2 / 100)
  have b3 := round_half_bounds ((T : ℚ) * z.z3 / 100)
  have b4 := round_half_bounds ((T : ℚ) * z.z4 / 100)
  have b5 := round_half_bounds ((T : ℚ) * z.z5 / 100)
  have hsum5 : (zoneSecondsList (T : ℚ) z).sum =
      zoneSeconds (T : ℚ) z.z1 + zoneSeconds (T : ℚ) z.z2 + zoneSeconds (T : ℚ) z.z3 +
        zoneSeconds (T : ℚ) z.z4 + zoneSeconds (T : ℚ) z.z5 := by
    simp [zoneSecondsList]
    ring
  rw [hsum5]
  unfold zoneSeconds
  have hup : ((round ((T : ℚ) * z.z1 / 100) + round ((T : ℚ) * z.z2 / 100) +
      round ((T : ℚ) * z.z3 / 100) + round ((T : ℚ) * z.z4 / 100) +
      round ((T : ℚ) * z.z5 / 100) - T : ℤ) : ℚ) < 3 := by
    push_cast
    linarith [b1.1, b2.1, b3.1, b4.1, b5.1]
  have hdown : (-3 : ℚ) < ((round ((T : ℚ) * z.z1 / 100) + round ((T : ℚ) * z.z2 / 100) +
      round ((T : ℚ) * z.z3 / 100) + round ((T : ℚ) * z.z4 / 100) +
      round ((T : ℚ) * z.z5 / 100) - T : ℤ) : ℚ) := by
    push_cast
    linarith [b1.2, b2.2, b3.2, b4.2, b5.2]
  have hup' : (round ((T : ℚ) * z.z1 / 100) + round ((T : ℚ) * z.z2 / 100) +
      round ((T : ℚ) * z.z3 / 100) + round ((T : ℚ) * z.z4 / 100) +
      round ((T : ℚ) * z.z5 / 100) - T : ℤ) < 3 := by exact_mod_cast hup
  have hdown' : (-3 : ℤ) < (round ((T : ℚ) * z.z1 / 100) + round ((T : ℚ) * z.z2 / 100) +
      round ((T : ℚ) * z.z3 / 100) + round ((T : ℚ) * z.z4 / 100) +
      round ((T : ℚ) * z.z5 / 100) - T : ℤ) := by exact_mod_cast hdown
  rw [abs_le]
  omega

theorem C4_witness :
    zoneSecondsList ((3600 : ℤ) : ℚ) ⟨20, 30, 30, 15, 5⟩ =
      [round (((3600 : ℤ) : ℚ) * 20 / 100), round (((3600 : ℤ) : ℚ) * 30 / 100),
        round (((3600 : ℤ) : ℚ) * 30 / 100), round (((3600 : ℤ) : ℚ) * 15 / 100),
        round (((3600 : ℤ) : ℚ) * 5 / 100)] ∧
    |(zoneSecondsList ((3600 : ℤ) : ℚ) ⟨20, 30, 30, 15, 5⟩).sum - 3600| ≤ 2 :=
  C4_zone_seconds_within_two 3600 ⟨20, 30, 30, 15, 5⟩ (by norm_num) (by norm_num) (by norm_num)
    (by norm_num) (by norm_num) (by norm_num) (by norm_num)

/-- C5 counterexample: with a single activity yesterday and none today,
the claim says the streak is 0 (walking backward from today inclusive,
breaking on the first gap), but `activityStreak` skips leading gap days
(`else if (streak > 0) break` does not break while `streak` is 0) and
returns 1. -/
theorem C5_counterexample :
    activityStreak [-1] 0 = 1 ∧ ([-1] : List ℤ).contains 0 = false := by
  decide

/-- Counting phase of the streak loop: once at least one active day has
been seen, the loop returns the streak extended by the next run of
consecutive active offsets. -/
theorem streakLoop_pos (dates : List ℤ) (today : ℤ) :
    ∀ (l : List ℕ) (streak : ℕ), 0 < streak →
      streakLoop dates today l streak =
        streak + (l.takeWhile fun i : ℕ => dates.contains (today - (i : ℤ))).length := by
  intro l
  induction l with
  | nil => intro streak _; simp [streakLoop]
  | cons i rest ih =>
    intro streak hpos
    simp only [streakLoop, List.takeWhile_cons]
    by_cases h : dates.contains (today - (i : ℤ))
    · rw [if_pos h, if_pos h, ih (streak + 1) (Nat.succ_pos streak), List.length_cons]
      omega
    · rw [if_neg h, if_neg h, if_pos hpos, List.length_nil]
      omega

/-- Skipping phase of the streak loop: while the streak is still 0, gap
days are dropped, and the result is the length of the first run of
active offsets. -/
theorem streakLoop_zero (dates : List ℤ) (today : ℤ) :
    ∀ l : List ℕ,
      streakLoop dates today l 0 =
        ((l.dropWhile fun i : ℕ => !dates.contains (today - (i : ℤ))).takeWhile
          fun i : ℕ => dates.contains (today - (i : ℤ))).length := by
  intro l
  induction l with
  | nil => simp [streakLoop]
  | cons i rest ih =>
    simp only [streakLoop, List.dropWhile_cons]
    by_cases h : dates.contains (today - (i : ℤ))
    · have hnot : ¬((!dates.contains (today - (i : ℤ))) = true) := by
        rw [h]
        decide
      rw [if_pos h, if_neg hnot,
        streakLoop_pos dates today rest 1 Nat.one_pos, List.takeWhile_cons, if_pos h,
        List.length_cons]
      omega
    · have hf : dates.contains (today - (i : ℤ)) = false := Bool.eq_false_iff.mpr h
      have hyes : (!dates.contains (today - (i : ℤ))) = true := by
        rw [hf]
        decide
      rw [if_neg h, if_neg (by omega : ¬(0 < 0)), ih, if_pos hyes]

/-- C5 (amended): the streak equals the length of the first maximal run
of consecutive active days found walking backward from today through
the 60-day window — gap days before the first active day are skipped
without breaking (so a streak that ended before today is still
reported); it is 0 only when no day in the window has an activity. -/
theorem C5_streak_is_first_run (dates : List ℤ) (today : ℤ) :
    activityStreak dates today = firstRunStreak dates today :=
  streakLoop_zero dates today (List.range 60)

/-- Telescoping of the split-derivation loop: when it emits at least one
split, the per-split elapsed times sum to the time of the sample at
which the last boundary was crossed minus the starting `prevTime`, and
that sample's distance has crossed the last emitted split boundary. -/
theorem splitsGo_elapsed_sum (m : ℚ) :
    ∀ (l : List (ℚ × ℚ)) (idx : ℤ) (prev : ℚ),
      splitsGo m l idx prev ≠ [] →
      ∃ dt : ℚ × ℚ, dt ∈ l ∧
        ((splitsGo m l idx prev).map Split.elapsed_time).sum = dt.2 - prev ∧
        ((idx + (splitsGo m l idx prev).length - 1 : ℤ) : ℚ) * m ≤ dt.1 := by
  intro l
  induction l with
  | nil => intro idx prev h; exact absurd rfl h
  | cons p rest ih =>
    intro idx prev h
    obtain ⟨d, t⟩ := p
    by_cases hc : (idx : ℚ) * m ≤ d
    · rw [splitsGo, if_pos hc] at h ⊢
      by_cases hrest : splitsGo m rest (idx + 1) t = []
      · refine ⟨(d, t), List.mem_cons_self _ _, ?_, ?_⟩
        · simp [hrest]
        · simp only [hrest, List.length_cons, List.length_nil]
          push_cast
          linarith [hc]
      · obtain ⟨dt', hmem', hsum', hcross'⟩ := ih (idx + 1) t hrest
        refine ⟨dt', List.mem_cons_of_mem _ hmem', ?_, ?_⟩
        · simp only [List.map_cons, List.sum_cons, hsum']
          ring
        · have harith : (idx + (({ split := idx, distance := m, elapsed_time := t - prev } ::
              splitsGo m rest (idx + 1) t).length : ℤ) - 1 : ℤ) =
              (idx + 1 + ((splitsGo m rest (idx + 1) t).length : ℤ) - 1 : ℤ) := by
            simp only [List.length_cons]
            push_cast
            ring
          rw [harith]
          exact hcross'
    · rw [splitsGo, if_neg hc] at h ⊢
      obtain ⟨dt', hmem', hsum', hcross'⟩ := ih idx prev h
      exact ⟨dt', List.mem_cons_of_mem _ hmem', hsum', hcross'⟩

/-- C10: for equal-length non-empty distance/time streams, either no
split is emitted and the elapsed times sum to 0, or the sum of all
emitted elapsed times equals the time-stream value at the sample where
the last emitted split boundary was crossed (whose distance has reached
`count × quantum`) — the per-split times telescope from the initial
`prevTime = 0`. -/
theorem C10_split_times_telescope (sw : Bool) (distances times : List ℚ)
    (hne : distances ≠ []) (hlen : distances.length = times.length) :
    (computeSplits sw distances times = [] ∧
      ((computeSplits sw distances times).map Split.elapsed_time).sum = 0) ∨
    (∃ j : ℕ, j < times.length ∧
      ((computeSplits sw distances times).map Split.elapsed_time).sum = times.getD j 0 ∧
      ((computeSplits sw distances times).length : ℚ) * (if sw then (100 : ℚ) else 1000) ≤
        distances.getD j 0) := by
  have hguard : ¬(distances.isEmpty ∨ times.isEmpty ∨ distances.length ≠ times.length) := by
    push_neg
    refine ⟨?_, ?_, hlen⟩
    · simpa [List.isEmpty_iff] using hne
    · have : times ≠ [] := by
        intro ht
        rw [ht] at hlen
        simp at hlen
        exact hne hlen
      simpa [List.isEmpty_iff] using this
  rw [computeSplits, if_neg hguard]
  by_cases hout : splitsGo (if sw then (100 : ℚ) else 1000) (distances.zip times) 1 0 = []
  · left
    exact ⟨hout, by rw [hout]; simp⟩
  · right
    obtain ⟨dt, hmem, hsum, hcross⟩ := splitsGo_elapsed_sum _ (distances.zip times) 1 0 hout
    obtain ⟨j, hj, hget⟩ := List.mem_iff_getElem.mp hmem
    have hjd : j < distances.length := by
      have := hj
      rw [List.length_zip] at this
      omega
    have hjt : j < times.length := by
      have := hj
      rw [List.length_zip] at this
      omega
    have hzip : (distances.zip times)[j] = (distances[j], times[j]) :=
      List.getElem_zip
    refine ⟨j, hjt, ?_, ?_⟩
    · rw [hsum]
      rw [hzip] at hget
      have ht : times[j] = dt.2 := by rw [← hget]
      rw [List.getD_eq_getElem times 0 hjt, ht]
      ring
    · have hd : distances[j] = dt.1 := by
        rw [hzip] at hget
        rw [← hget]
      rw [List.getD_eq_getElem distances 0 hjd, hd]
      have harith : ((1 + ((splitsGo (if sw then (100 : ℚ) else 1000)
          (distances.zip times) 1 0).length : ℤ) - 1 : ℤ) : ℚ) =
          ((splitsGo (if sw then (100 : ℚ) else 1000) (distances.zip times) 1 0).length : ℚ) := by
        push_cast
        ring
      rw [harith] at hcross
      exact hcross

theorem C10_witness :
    (computeSplits false [0, 250, 500, 750, 1000, 1250] [0, 60, 120, 180, 240, 300] = [] ∧
      ((computeSplits false [0, 250, 500, 750, 1000, 1250]
        [0, 60, 120, 180, 240, 300]).map Split.elapsed_time).sum = 0) ∨
    (∃ j : ℕ, j < ([0, 60, 120, 180, 240, 300] : List ℚ).length ∧
      ((computeSplits false [0, 250, 500, 750, 1000, 1250]
        [0, 60, 120, 180, 240, 300]).map Split.elapsed_time).sum =
        ([0, 60, 120, 180, 240, 300] : List ℚ).getD j 0 ∧
      (((computeSplits false [0, 250, 500, 750, 1000, 1250]
        [0, 60, 120, 180, 240, 300]).length : ℚ) * (if false then (100 : ℚ) else 1000) ≤
        ([0, 250, 500, 750, 1000, 1250] : List ℚ).getD j 0)) :=
  C10_split_times_telescope false [0, 250, 500, 750, 1000, 1250] [0, 60, 120, 180, 240, 300]
    (List.cons_ne_nil _ _) rfl

/-- Lookup of the accumulator stored for week key `k` (JS `byWeek[week]`). -/
def findW (k : WeekKey) : List (WeekKey × WeekAcc) → Option WeekAcc
  | [] => none
  | (k', acc) :: rest => if k' = k then some acc else findW k rest

/-- Updating a key's entry stores the accumulator extended by the new
activity (with a fresh accumulator when the key was absent). -/
theorem findW_insertWeek_self :
    ∀ (st : List (WeekKey × WeekAcc)) (k : WeekKey) (a : Activity),
      findW k (insertWeek st k a) = some (addActivity ((findW k st).getD emptyWeekAcc) a) := by
  intro st
  induction st with
  | nil => intro k a; simp [insertWeek, findW]
  | cons e rest ih =>
    intro k a
    obtain ⟨k', acc⟩ := e
    by_cases h : k' = k
    · subst h
      simp [insertWeek, findW]
    · simp only [insertWeek, if_neg h, findW]
      exact ih k a

/-- Updating one key leaves every other key's entry unchanged. -/
theorem findW_insertWeek_ne :
    ∀ (st : List (WeekKey × WeekAcc)) (k' k : WeekKey) (a : Activity), k' ≠ k →
      findW k (insertWeek st k' a) = findW k st := by
  intro st
  induction st with
  | nil => intro k' k a h; simp [insertWeek, findW, h]
  | cons e rest ih =>
    intro k' k a h
    obtain ⟨k'', acc⟩ := e
    by_cases h2 : k'' = k'
    · subst h2
      simp only [insertWeek, if_pos rfl, findW]
      rw [if_neg h, if_neg h]
    · simp only [insertWeek, if_neg h2, findW]
      by_cases h3 : k'' = k
      · rw [if_pos h3, if_pos h3]
      · rw [if_neg h3, if_neg h3, ih k' k a h]

/-- Any key present after an upsert was present before or is the
inserted key. -/
theorem mem_keys_insertWeek :
    ∀ (st : List (WeekKey × WeekAcc)) (k : WeekKey) (a : Activity) (k'' : WeekKey),
      k'' ∈ (insertWeek st k a).map Prod.fst → k'' ∈ st.map Prod.fst ∨ k'' = k := by
  intro st
  induction st with
  | nil =>
    intro k a k'' h
    simp [insertWeek] at h
    exact Or.inr h
  | cons e rest ih =>
    intro k a k'' h
    obtain ⟨k', acc⟩ := e
    by_cases hk : k' = k
    · rw [insertWeek, if_pos hk] at h
      simp only [List.map_cons, List.mem_cons] at h ⊢
      tauto
    · rw [insertWeek, if_neg hk] at h
      simp only [List.map_cons, List.mem_cons] at h ⊢
      rcases h with h | h
      · tauto
      · rcases ih k a k'' h with h2 | h2 <;> tauto

/-- Upserting keeps the stored keys distinct. -/
theorem nodup_keys_insertWeek :
    ∀ (st : List (WeekKey × WeekAcc)) (k : WeekKey) (a : Activity),
      (st.map Prod.fst).Nodup → ((insertWeek st k a).map Prod.fst).Nodup := by
  intro st
  induction st with
  | nil => intro k a _; simp [insertWeek]
  | cons e rest ih =>
    intro k a hn
    obtain ⟨k', acc⟩ := e
    simp only [List.map_cons, List.nodup_cons] at hn
    by_cases hk : k' = k
    · rw [insertWeek, if_pos hk]
      simp only [List.map_cons, List.nodup_cons]
      exact hn
    · rw [insertWeek, if_neg hk]
      simp only [List.map_cons, List.nodup_cons]
      refine ⟨?_, ih k a hn.2⟩
      intro hmem
      rcases mem_keys_insertWeek rest k a k' hmem with h | h
      · exact hn.1 h
      · exact hk h

/-- Characterisation of the bucketing fold: after folding a list of
activities into the state, the entry stored for key `k` is the previous
entry (absent activities for `k`), or the fold of `addActivity` over
exactly the activities whose week key is `k`. -/
theorem findW_foldl_insertWeek (k : WeekKey) :
    ∀ (acts : List Activity) (st : List (WeekKey × WeekAcc)),
      findW k (acts.foldl (fun s a => insertWeek s (weekKeyOf a) a) st) =
        if (acts.filter fun a => weekKeyOf a == k) = [] then findW k st
        else some ((acts.filter fun a => weekKeyOf a == k).foldl addActivity
          ((findW k st).getD emptyWeekAcc)) := by
  intro acts
  induction acts with
  | nil => intro st; simp
  | cons a rest ih =>
    intro st
    rw [List.foldl_cons]
    by_cases hk : weekKeyOf a = k
    · have hfilter : ((a :: rest).filter fun x => weekKeyOf x == k) =
          a :: (rest.filter fun x => weekKeyOf x == k) := by
        simp [List.filter_cons, hk]
      rw [ih (insertWeek st (weekKeyOf a) a), hfilter, hk, findW_insertWeek_self]
      by_cases hrest : (rest.filter fun x => weekKeyOf x == k) = []
      · rw [if_pos hrest, if_neg (List.cons_ne_nil _ _), List.foldl_cons, hrest,
          List.foldl_nil]
      · rw [if_neg hrest, if_neg (List.cons_ne_nil _ _), List.foldl_cons]
        simp
    · have hfilter : ((a :: rest).filter fun x => weekKeyOf x == k) =
          rest.filter fun x => weekKeyOf x == k := by
        simp [List.filter_cons, hk]
      rw [ih (insertWeek st (weekKeyOf a) a), hfilter,
        findW_insertWeek_ne st (weekKeyOf a) k a hk]

/-- With distinct keys, list membership determines the lookup. -/
theorem findW_of_mem :
    ∀ (st : List (WeekKey × WeekAcc)) (k : WeekKey) (acc : WeekAcc),
      (st.map Prod.fst).Nodup → (k, acc) ∈ st → findW k st = some acc := by
  intro st
  induction st with
  | nil => intro k acc _ h; simp at h
  | cons e rest ih =>
    intro k acc hn hmem
    obtain ⟨k0, acc0⟩ := e
    simp only [List.map_cons, List.nodup_cons] at hn
    rcases List.mem_cons.mp hmem with h | h
    · injection h with h1 h2
      rw [findW, if_pos h1.symm, h2]
    · have hk0 : k0 ≠ k := by
        intro he
        subst he
        exact hn.1 (List.mem_map.mpr ⟨(k0, acc), h, rfl⟩)
      rw [findW, if_neg hk0]
      exact ih k acc hn.2 h

/-- The keys of the bucketing fold stay distinct. -/
theorem nodup_keys_foldl :
    ∀ (acts : List Activity) (st : List (WeekKey × WeekAcc)),
      (st.map Prod.fst).Nodup →
      ((acts.foldl (fun s a => insertWeek s (weekKeyOf a) a) st).map Prod.fst).Nodup := by
  intro acts
  induction acts with
  | nil => intro st h; exact h
  | cons a rest ih =>
    intro st h
    rw [List.foldl_cons]
    exact ih _ (nodup_keys_insertWeek st (weekKeyOf a) a h)

theorem nodup_keys_bucketize (acts : List Activity) :
    ((bucketize acts).map Prod.fst).Nodup :=
  nodup_keys_foldl acts [] (by simp)

/-- Every bucket of the fold holds exactly the `addActivity`-fold of the
activities with its key. -/
theorem bucketize_mem_eq (acts : List Activity) (k : WeekKey) (acc : WeekAcc)
    (hmem : (k, acc) ∈ bucketize acts) :
    acc = (acts.filter fun a => weekKeyOf a == k).foldl addActivity emptyWeekAcc := by
  have hf := findW_of_mem _ k acc (nodup_keys_bucketize acts) hmem
  rw [bucketize, findW_foldl_insertWeek] at hf
  by_cases hfil : (acts.filter fun a => weekKeyOf a == k) = []
  · rw [if_pos hfil] at hf
    simp [findW] at hf
  · rw [if_neg hfil] at hf
    simp only [findW, Option.getD_none, Option.some.injEq] at hf
    exact hf.symm

/-- Sorting only permutes the buckets. -/
theorem groupByWeek_mem_iff (inWindow : Activity → Bool) (acts : List Activity)
    (e : WeekKey × WeekAcc) :
    e ∈ groupByWeek inWindow acts ↔ e ∈ bucketize (acts.filter inWindow) :=
  (List.perm_insertionSort _ _).mem_iff

/-- The `addActivity` fold accumulates each field as the sum of its
per-activity contributions. -/
theorem foldl_addActivity_fields :
    ∀ (l : List Activity) (acc0 : WeekAcc),
      l.foldl addActivity acc0 =
        { distance := acc0.distance + (l.map fun a => km a.distance_m).sum
          time := acc0.time + (l.map fun a => a.moving_time_s / 60).sum
          load := acc0.load + (l.map loadTerm).sum
          run := acc0.run + (l.map fun a =>
            if matchesSport "run" a then km a.distance_m else 0).sum
          ride := acc0.ride + (l.map fun a =>
            if matchesSport "ride" a then km a.distance_m else 0).sum
          swim := acc0.swim + (l.map fun a =>
            if matchesSport "swim" a then km a.distance_m else 0).sum } := by
  intro l
  induction l with
  | nil => intro acc0; simp
  | cons a rest ih =>
    intro acc0
    rw [List.foldl_cons, ih]
    simp only [addActivity, List.map_cons, List.sum_cons, WeekAcc.mk.injEq]
    refine ⟨?_, ?_, ?_, ?_, ?_, ?_⟩ <;> ring

/-- C6 (amended): each week's training-load score equals the sum, over
that week's activities, of `moving_minutes × intensity / 100`, where
`intensity` is the provider's `suffer_score` when supplied (even 0) and
otherwise `min(100, h / 2)` with `h` the activity's `avg_hr` when
supplied and non-zero and the default heart rate 140 otherwise. -/
theorem C6_weekly_load (inWindow : Activity → Bool) (acts : List Activity)
    (k : WeekKey) (acc : WeekAcc)
    (hmem : (k, acc) ∈ groupByWeek inWindow acts) :
    acc.load = (((acts.filter inWindow).filter fun a => weekKeyOf a == k).map loadTerm).sum := by
  have he := bucketize_mem_eq _ k acc ((groupByWeek_mem_iff _ _ _).mp hmem)
  rw [he, foldl_addActivity_fields]
  simp [emptyWeekAcc]

/-- An activity with a present-but-zero average heart rate and no
suffer score: the claimed intensity `min(100, avg_hr / 2) = 0`, but the
code computes `min(100, (avg_hr || 140) / 2) = 70`. -/
def hrZeroRun : Activity :=
  { type := "Run"
    start_date := ⟨2025, 1, 6⟩
    distance_m := 1000
    moving_time_s := 60
    suffer_score := none
    avg_hr := some 0 }

/-- C6 counterexample: for `hrZeroRun` (no suffer score, `avg_hr = 0`),
the week's load is `1 × 70 / 100 = 7/10`, not the
`1 × min(100, 0/2) / 100 = 0` the claim's intensity formula demands —
the code falls back to a default heart rate of 140 whenever `avg_hr` is
null or 0. -/
theorem C6_counterexample :
    ((groupByWeek (fun _ => true) [hrZeroRun]).map fun e => e.2.load) = [7 / 10] ∧
      (hrZeroRun.moving_time_s / 60) * (min 100 ((0 : ℚ) / 2) / 100) = 0 ∧
      (7 / 10 : ℚ) ≠ 0 := by
  refine ⟨?_, by norm_num [hrZeroRun], by norm_num⟩
  norm_num [groupByWeek, bucketize, List.insertionSort, List.orderedInsert, insertWeek,
    addActivity, loadTerm, intensity, emptyWeekAcc, km, hrZeroRun]

theorem C6_witness :
    ({ distance := 1, time := 1, load := 7 / 10, run := 1, ride := 0, swim := 0 } : WeekAcc).load =
      ((([hrZeroRun].filter fun _ => true).filter
        fun a => weekKeyOf a == ((2025 : ℤ), (2 : ℤ))).map loadTerm).sum :=
  C6_weekly_load (fun _ => true) [hrZeroRun] (2025, 2)
    { distance := 1, time := 1, load := 7 / 10, run := 1, ride := 0, swim := 0 }
    (by
      have h3 : groupByWeek (fun _ => true) [hrZeroRun] =
          [(weekKeyOf hrZeroRun, addActivity emptyWeekAcc hrZeroRun)] := rfl
      have hkey : weekKeyOf hrZeroRun = ((2025 : ℤ), (2 : ℤ)) := by decide
      have hacc : addActivity emptyWeekAcc hrZeroRun =
          { distance := 1, time := 1, load := 7 / 10, run := 1, ride := 0, swim := 0 } := by
        have hrun : matchesSport "run" hrZeroRun = true := by decide
        have hride : matchesSport "ride" hrZeroRun = false := by decide
        have hswim : matchesSport "swim" hrZeroRun = false := by decide
        have hss : hrZeroRun.suffer_score = none := rfl
        have hah : hrZeroRun.avg_hr = some 0 := rfl
        have hdm : hrZeroRun.distance_m = 1000 := rfl
        have hmt : hrZeroRun.moving_time_s = 60 := rfl
        norm_num [addActivity, emptyWeekAcc, loadTerm, intensity, km, hrun, hride, hswim,
          hss, hah, hdm, hmt, WeekAcc.mk.injEq]
      rw [h3, hkey, hacc]
      exact List.mem_singleton.mpr rfl)

/-- The sport-type string matches at most one of run/ride/swim (the
hypothesis under which per-sport distances cannot double count). -/
def atMostOneSport (a : Activity) : Prop :=
  ¬(matchesSport "run" a = true ∧ matchesSport "ride" a = true) ∧
  ¬(matchesSport "run" a = true ∧ matchesSport "swim" a = true) ∧
  ¬(matchesSport "ride" a = true ∧ matchesSport "swim" a = true)

/-- Splitting a sum of pointwise sums of rationals. -/
theorem sum_map_add_q {α : Type} (f g : α → ℚ) :
    ∀ l : List α, (l.map fun a => f a + g a).sum = (l.map f).sum + (l.map g).sum := by
  intro l
  induction l with
  | nil => simp
  | cons a rest ih =>
    simp only [List.map_cons, List.sum_cons, ih]
    ring

/-- C9 (amended): for every activity set whose activities have
non-negative distances and sport-type strings matching at most one of
run/ride/swim, every weekly bucket satisfies
`run + ride + swim ≤ distance`.  (A type string containing several
sport names — e.g. "RunRide" — is counted once per matching sport by
the code, which is what the extra hypothesis excludes.) -/
theorem C9_sport_sum_le_total (inWindow : Activity → Bool) (acts : List Activity)
    (hd : ∀ a ∈ acts, 0 ≤ a.distance_m)
    (hs : ∀ a ∈ acts, atMostOneSport a)
    (k : WeekKey) (acc : WeekAcc)
    (hmem : (k, acc) ∈ groupByWeek inWindow acts) :
    acc.run + acc.ride + acc.swim ≤ acc.distance := by
  have he := bucketize_mem_eq _ k acc ((groupByWeek_mem_iff _ _ _).mp hmem)
  rw [he, foldl_addActivity_fields]
  simp only [emptyWeekAcc, zero_add]
  rw [← sum_map_add_q, ← sum_map_add_q]
  apply List.sum_le_sum
  intro a ha
  have hacts : a ∈ acts := (List.mem_filter.mp (List.mem_filter.mp ha).1).1
  have hd' := hd a hacts
  have hs' := hs a hacts
  have hkm : 0 ≤ km a.distance_m := by
    unfold km
    positivity
  obtain ⟨h12, h13, h23⟩ := hs'
  by_cases h1 : matchesSport "run" a <;>
    by_cases h2 : matchesSport "ride" a <;>
    by_cases h3 : matchesSport "swim" a
  · exact absurd ⟨h1, h2⟩ h12
  · exact absurd ⟨h1, h2⟩ h12
  · exact absurd ⟨h1, h3⟩ h13
  · simp only [h1, h2, h3, if_true, if_false, ite_true, ite_false, eq_self_iff_true,
      Bool.false_eq_true]
    linarith
  · exact absurd ⟨h2, h3⟩ h23
  · simp only [h1, h2, h3, if_true, if_false, ite_true, ite_false, eq_self_iff_true,
      Bool.false_eq_true]
    linarith
  · simp only [h1, h2, h3, if_true, if_false, ite_true, ite_false, eq_self_iff_true,
      Bool.false_eq_true]
    linarith
  · simp only [h1, h2, h3, if_true, if_false, ite_true, ite_false, eq_self_iff_true,
      Bool.false_eq_true]
    linarith

/-- An activity whose sport-type string contains both "run" and "ride":
its distance is counted in both sports. -/
def runRideCombo : Activity :=
  { type := "RunRide"
    start_date := ⟨2025, 1, 6⟩
    distance_m := 1000
    moving_time_s := 0
    suffer_score := some 0
    avg_hr := none }

/-- C9 counterexample: a single activity typed "RunRide" of 1 km
produces a weekly bucket with `run = ride = 1`, `swim = 0` and
`distance = 1`, so the per-sport sum 2 exceeds the total distance 1 —
its distance is counted in more than one sport, refuting the claim for
arbitrary activity sets. -/
theorem C9_counterexample :
    ((groupByWeek (fun _ => true) [runRideCombo]).map
      fun e => (e.2.run + e.2.ride + e.2.swim, e.2.distance)) = [((2 : ℚ), (1 : ℚ))] ∧
      ¬((2 : ℚ) ≤ 1) := by
  refine ⟨?_, by norm_num⟩
  have h3 : groupByWeek (fun _ => true) [runRideCombo] =
      [(weekKeyOf runRideCombo, addActivity emptyWeekAcc runRideCombo)] := rfl
  have hrun : matchesSport "run" runRideCombo = true := by decide
  have hride : matchesSport "ride" runRideCombo = true := by decide
  have hswim : matchesSport "swim" runRideCombo = false := by decide
  have hdm : runRideCombo.distance_m = 1000 := rfl
  rw [h3]
  norm_num [addActivity, emptyWeekAcc, km, hrun, hride, hswim, hdm]

theorem C9_witness :
    ({ distance := 1, time := 5, load := 7 / 2, run := 1, ride := 0, swim := 0 } : WeekAcc).run +
      ({ distance := 1, time := 5, load := 7 / 2, run := 1, ride := 0, swim := 0 } : WeekAcc).ride +
      ({ distance := 1, time := 5, load := 7 / 2, run := 1, ride := 0, swim := 0 } : WeekAcc).swim ≤
      ({ distance := 1, time := 5, load := 7 / 2, run := 1, ride := 0, swim := 0 } : WeekAcc).distance :=
  C9_sport_sum_le_total (fun _ => true) [sampleTrailRun]
    (by
      intro a ha
      rw [List.mem_singleton.mp ha]
      norm_num [sampleTrailRun])
    (by
      intro a ha
      rw [List.mem_singleton.mp ha]
      unfold atMostOneSport
      have hride : matchesSport "ride" sampleTrailRun = false := by decide
      have hswim : matchesSport "swim" sampleTrailRun = false := by decide
      simp [hride, hswim])
    (2025, 2)
    { distance := 1, time := 5, load := 7 / 2, run := 1, ride := 0, swim := 0 }
    (by
      have h3 : groupByWeek (fun _ => true) [sampleTrailRun] =
          [(weekKeyOf sampleTrailRun, addActivity emptyWeekAcc sampleTrailRun)] := rfl
      have hkey : weekKeyOf sampleTrailRun = ((2025 : ℤ), (2 : ℤ)) := by decide
      have hacc : addActivity emptyWeekAcc sampleTrailRun =
          { distance := 1, time := 5, load := 7 / 2, run := 1, ride := 0, swim := 0 } := by
        have hrun : matchesSport "run" sampleTrailRun = true := by decide
        have hride : matchesSport "ride" sampleTrailRun = false := by decide
        have hswim : matchesSport "swim" sampleTrailRun = false := by decide
        have hss : sampleTrailRun.suffer_score = none := rfl
        have hah : sampleTrailRun.avg_hr = none := rfl
        have hdm : sampleTrailRun.distance_m = 1000 := rfl
        have hmt : sampleTrailRun.moving_time_s = 300 := rfl
        norm_num [addActivity, emptyWeekAcc, loadTerm, intensity, km, hrun, hride, hswim,
          hss, hah, hdm, hmt, WeekAcc.mk.injEq]
      rw [h3, hkey, hacc]
      exact List.mem_singleton.mpr rfl)

/-- The civil day-numbering depends on the day-of-month only through an
added `day - 1`. -/
theorem daysFromCivil_day (y m d : ℤ) :
    daysFromCivil ⟨y, m, d⟩ = daysFromCivil ⟨y, m, 1⟩ + (d - 1) := by
  simp only [daysFromCivil]
  by_cases hm : m ≤ 2
  · simp only [if_pos hm]
    omega
  · simp only [if_neg hm]
    omega

/-- C3 counterexample: Sunday 2025-01-05 and Monday 2025-01-06 lie in
different Monday-start calendar weeks, yet `groupByWeek` gives both the
same bucket key `2025-W2` — the code's key
`ceil((dayOfMonth + 6 − dayOfWeek) / 7)` groups Sunday with the
following Monday (Sunday-start weeks), not Monday-start weeks. -/
theorem C3_counterexample :
    weekKeyOfDate ⟨2025, 1, 5⟩ = weekKeyOfDate ⟨2025, 1, 6⟩ ∧
      mondayWeekIndex ⟨2025, 1, 5⟩ ≠ mondayWeekIndex ⟨2025, 1, 6⟩ := by
  decide

/-- C3 (amended): for start dates in the same year and month, two
activities receive the same weekly bucket key iff their dates lie in
the same Sunday-start (Sunday 00:00 → Saturday 23:59) calendar week.
(Across months the claim fails further: the key contains no month, so
e.g. the first week of January and the first week of February of one
year collide in one bucket.) -/
theorem C3_bucket_iff_sunday_week (d1 d2 : CivilDate)
    (hy : d1.year = d2.year) (hm : d1.month = d2.month) :
    weekKeyOfDate d1 = weekKeyOfDate d2 ↔ sundayWeekIndex d1 = sundayWeekIndex d2 := by
  obtain ⟨y1, m1, a⟩ := d1
  obtain ⟨y2, m2, b⟩ := d2
  simp only at hy hm
  subst hy
  subst hm
  simp only [weekKeyOfDate, sundayWeekIndex, jsDayOfWeek, daysFromCivil_day y1 m1 a,
    daysFromCivil_day y1 m1 b, Prod.mk.injEq, true_and]
  omega

theorem C3_witness :
    weekKeyOfDate ⟨2025, 1, 5⟩ = weekKeyOfDate ⟨2025, 1, 12⟩ ↔
      sundayWeekIndex ⟨2025, 1, 5⟩ = sundayWeekIndex ⟨2025, 1, 12⟩ :=
  C3_bucket_iff_sunday_week ⟨2025, 1, 5⟩ ⟨2025, 1, 12⟩ rfl rfl

/-- One EMA blend with a clamped in-range candidate stays in
`[120, 1200]`: the candidate is clamped to `[0.55·ema, 1.6·ema]` and,
with `ema ∈ [120, 1200]` and the raw pace in `[120, 1200]`, the clamp
lands in `[120, 1200]`, so the convex-like blend
`0.82·ema + 0.18·candidate` does too. -/
theorem ema_step_in_range (e p : ℚ) (he1 : 120 ≤ e) (he2 : e ≤ 1200)
    (hp1 : 120 ≤ p) (hp2 : p ≤ 1200) :
    120 ≤ 0.82 * e + 0.18 * max (0.55 * e) (min (1.6 * e) p) ∧
      0.82 * e + 0.18 * max (0.55 * e) (min (1.6 * e) p) ≤ 1200 := by
  have hcl : (120 : ℚ) ≤ max (0.55 * e) (min (1.6 * e) p) :=
    le_trans (le_min (by linarith) hp1) (le_max_right _ _)
  have hcu : max (0.55 * e) (min (1.6 * e) p) ≤ 1200 :=
    max_le (by linarith) (le_trans (min_le_right _ _) hp2)
  constructor <;> linarith

/-- The EMA update of one bucket preserves the `[120, 1200]` range,
whatever the bucket's elapsed time and distance are. -/
theorem emaUpdate_in_range (e elapsed dd : ℚ) (h1 : 120 ≤ e) (h2 : e ≤ 1200) :
    120 ≤ emaUpdate e (paceCandidateOf e elapsed dd) ∧
      emaUpdate e (paceCandidateOf e elapsed dd) ≤ 1200 := by
  unfold paceCandidateOf
  by_cases hc1 : 0 < elapsed ∧ 2 < dd
  · rw [if_pos hc1]
    by_cases hc2 : 120 ≤ elapsed / (dd / 1000) ∧ elapsed / (dd / 1000) ≤ 1200
    · rw [if_pos hc2]
      exact ema_step_in_range e _ h1 h2 hc2.1 hc2.2
    · rw [if_neg hc2]
      exact ⟨h1, h2⟩
  · rw [if_neg hc1]
    exact ⟨h1, h2⟩

/-- Rounding to one decimal place preserves the `[120, 1200]` range
(both bounds are multiples of 1/10). -/
theorem round1_in_range (x : ℚ) (h1 : 120 ≤ x) (h2 : x ≤ 1200) :
    120 ≤ round1 x ∧ round1 x ≤ 1200 := by
  have hlo : (1200 : ℤ) ≤ round (10 * x) := by
    rw [round_eq]
    exact Int.le_floor.mpr (by push_cast; linarith)
  have hhi : round (10 * x) ≤ (12000 : ℤ) := by
    rw [round_eq]
    have hf : ((⌊10 * x + 1 / 2⌋ : ℤ) : ℚ) ≤ 10 * x + 1 / 2 := Int.floor_le _
    have hq : ((⌊10 * x + 1 / 2⌋ : ℤ) : ℚ) < ((12001 : ℤ) : ℚ) := by push_cast; linarith
    exact Int.lt_add_one_iff.mp (by exact_mod_cast hq)
  unfold round1
  constructor
  · rw [le_div_iff₀ (by norm_num : (0 : ℚ) < 10)]
    calc (120 : ℚ) * 10 = ((1200 : ℤ) : ℚ) := by norm_num
    _ ≤ ((round (10 * x) : ℤ) : ℚ) := by exact_mod_cast hlo
  · rw [div_le_iff₀ (by norm_num : (0 : ℚ) < 10)]
    calc ((round (10 * x) : ℤ) : ℚ) ≤ ((12000 : ℤ) : ℚ) := by exact_mod_cast hhi
    _ = 1200 * 10 := by norm_num

/-- Loop invariant of the pace smoother: if the EMA enters a bucket in
`[120, 1200]`, every pace emitted from that point on stays in
`[120, 1200]`. -/
theorem hrPaceGo_pace_in_range (dist time : List ℚ) (hr : List (Option ℚ)) :
    ∀ (fuel i startIdx : ℕ) (emaPace : ℚ) (lastHr : Option ℚ),
      120 ≤ emaPace → emaPace ≤ 1200 →
      ∀ s ∈ hrPaceGo dist time hr fuel i startIdx emaPace lastHr,
        120 ≤ s.pace ∧ s.pace ≤ 1200 := by
  intro fuel
  induction fuel with
  | zero =>
    intro i startIdx emaPace lastHr _ _ s hs
    simp [hrPaceGo] at hs
  | succ fuel ih =>
    intro i startIdx emaPace lastHr h1 h2 s hs
    simp only [hrPaceGo] at hs
    by_cases hel : time.getD i 0 - time.getD startIdx 0 < 10
    · rw [if_pos hel] at hs
      exact ih (i + 1) startIdx emaPace lastHr h1 h2 s hs
    · rw [if_neg hel] at hs
      obtain ⟨hb1, hb2⟩ := emaUpdate_in_range emaPace
        (time.getD i 0 - time.getD startIdx 0)
        (dist.getD i 0 - dist.getD startIdx 0) h1 h2
      rcases List.mem_cons.mp hs with hs | hs
      · rw [hs]
        exact round1_in_range _ hb1 hb2
      · exact ih (i + 1) i _ _ hb1 hb2 s hs

/-- C1 (amended): provided the first EMA seed — the activity's overall
average pace, defaulting to 360 s/km — itself lies within
`[120, 1200]`, every pace value emitted by the smoothed pace series
lies within `[120, 1200]`.  (The seed bound is necessary: see the
counterexample, with an out-of-range seed the raw `[120, 1200]` filter
only constrains the candidates, not the emitted blended values.) -/
theorem C1_pace_in_range_of_seed (distanceM movingTimeS : ℚ) (avgHr : Option ℚ)
    (dist time : List ℚ) (hr : List (Option ℚ))
    (h1 : 120 ≤ fallbackPace distanceM movingTimeS)
    (h2 : fallbackPace distanceM movingTimeS ≤ 1200) :
    ∀ s ∈ hrPaceSeries distanceM movingTimeS avgHr dist time hr,
      120 ≤ s.pace ∧ s.pace ≤ 1200 := by
  intro s hs
  simp only [hrPaceSeries] at hs
  by_cases hlen : min dist.length time.length < 2
  · rw [if_pos hlen] at hs
    simp at hs
  · rw [if_neg hlen] at hs
    exact hrPaceGo_pace_in_range dist time hr _ 1 0 _ _ h1 h2 s hs

theorem C1_witness :
    (120 ≤ fallbackPace 0 0 ∧ fallbackPace 0 0 ≤ 1200) ∧
      (120 ≤ (⟨10, none, (360 : ℚ)⟩ : PaceSample).pace ∧
        (⟨10, none, (360 : ℚ)⟩ : PaceSample).pace ≤ 1200) :=
  ⟨⟨by norm_num [fallbackPace, pacePerKm], by norm_num [fallbackPace, pacePerKm]⟩,
    C1_pace_in_range_of_seed 0 0 none [0, 100] [0, 10] []
      (by norm_num [fallbackPace, pacePerKm]) (by norm_num [fallbackPace, pacePerKm])
      ⟨10, none, (360 : ℚ)⟩
      (by
        norm_num [hrPaceSeries, hrPaceGo, fallbackPace, pacePerKm, paceCandidateOf,
          emaUpdate, round1, round_eq, hrValue, hrWindow, List.replicate,
          List.foldl_cons, List.foldl_nil])⟩

/-- C1 counterexample: an activity with distance 100 m and moving time
1000 s has overall average pace 10000 s/km; with streams
`distance=[0,1]`, `time=[0,10]` (one 10 s bucket whose 1 m distance
gain rejects any candidate), the emitted pace is the untouched seed
10000, far outside `[120, 1200]`. -/
theorem C1_counterexample :
    (hrPaceSeries 100 1000 none [0, 1] [0, 10] []).map PaceSample.pace = [10000] ∧
      ¬((10000 : ℚ) ≤ 1200) := by
  refine ⟨?_, by norm_num⟩
  norm_num [hrPaceSeries, hrPaceGo, fallbackPace, pacePerKm, paceCandidateOf, emaUpdate,
    round1, round_eq, hrValue, hrWindow, List.replicate, List.foldl_cons, List.foldl_nil]
